import Mathlib

/-!
Shallow embedding of `src/gmail_filters_curator.py` (a validator and
label-sorter for an exported Gmail-filter XML document) and proofs about it.

Python `Element` values become the inductive `Node`; attribute-dictionary
indexing `elem.attrib[k]` becomes `attribIndex`, which returns
`Except.error (PyError.keyError k)` when the attribute is absent, and a failed
`assert` becomes `Except.error PyError.assertionError`.  Each Python function
of the source is translated to a Lean function of the same name.
-/

/-- Runtime failures of the Python source: `KeyError` raised by indexing an
attribute dictionary with a missing key, and `AssertionError` raised by a
failed `assert` statement. -/
inductive PyError : Type where
  | keyError (key : String) : PyError
  | assertionError : PyError
deriving DecidableEq

/-- An `xml.etree.ElementTree.Element`: a namespace-qualified tag (Python
stores it as the single string `"\x7bnamespace\x7dlocalname"`), an attribute
dictionary, optional text content, and an ordered list of child elements. -/
inductive Node : Type where
  | mk (tag : String) (attrib : List (String × String)) (text : Option String)
      (children : List Node) : Node

/-- Tag of an element (`elem.tag`). -/
def Node.tag : Node → String
  | .mk t _ _ _ => t

/-- Attribute dictionary of an element (`elem.attrib`). -/
def Node.attrib : Node → List (String × String)
  | .mk _ a _ _ => a

/-- Text content of an element (`elem.text`, `None` when absent). -/
def Node.text : Node → Option String
  | .mk _ _ x _ => x

/-- Children of an element, in document order. -/
def Node.children : Node → List Node
  | .mk _ _ _ c => c

@[simp] theorem Node.tag_mk (t : String) (a : List (String × String)) (x : Option String)
    (c : List Node) : (Node.mk t a x c).tag = t := rfl

@[simp] theorem Node.attrib_mk (t : String) (a : List (String × String)) (x : Option String)
    (c : List Node) : (Node.mk t a x c).attrib = a := rfl

@[simp] theorem Node.text_mk (t : String) (a : List (String × String)) (x : Option String)
    (c : List Node) : (Node.mk t a x c).text = x := rfl

@[simp] theorem Node.children_mk (t : String) (a : List (String × String)) (x : Option String)
    (c : List Node) : (Node.mk t a x c).children = c := rfl

/-- Attribute lookup returning `none` when the key is absent
(`elem.attrib.get(k)`). -/
def getAttr (n : Node) (key : String) : Option String :=
  (n.attrib.find? (fun p => p.1 == key)).map (fun p => p.2)

/-- Attribute indexing `elem.attrib[k]`: raises `KeyError` when absent. -/
def attribIndex (n : Node) (key : String) : Except PyError String :=
  match getAttr n key with
  | some v => Except.ok v
  | none => Except.error (PyError.keyError key)

/-- A Python `assert b` statement. -/
def assertB (b : Bool) : Except PyError Unit :=
  if b then Except.ok () else Except.error PyError.assertionError

def xml_default_namespace : String := "http://www.w3.org/2005/Atom"

def xml_apps_namespace : String := "http://schemas.google.com/apps/2006"

/-- Line 20 of the source: `'\x7b' + namespace + '\x7d' + tag`. -/
def get_xml_tag_with_namespace (ns tag : String) : String :=
  "\x7b" ++ ns ++ "\x7d" ++ tag

def categoryTag : String := get_xml_tag_with_namespace xml_default_namespace "category"

def titleTag : String := get_xml_tag_with_namespace xml_default_namespace "title"

def idTag : String := get_xml_tag_with_namespace xml_default_namespace "id"

def updatedTag : String := get_xml_tag_with_namespace xml_default_namespace "updated"

def contentTag : String := get_xml_tag_with_namespace xml_default_namespace "content"

def propertyTag : String := get_xml_tag_with_namespace xml_apps_namespace "property"

def entryTag : String := get_xml_tag_with_namespace xml_default_namespace "entry"

/-- Lines 25-32: the required child tags of a filter entry (a Python set;
modelled as a list, membership is what the source uses it for). -/
def required_filter_entry_tags : List String :=
  [categoryTag, titleTag, idTag, updatedTag, contentTag, propertyTag]

/-- Lines 34-38: the required property names of a filter entry. -/
def required_filter_entry_properties : List String :=
  ["from", "label", "shouldNeverSpam"]

/-- Lines 56-78: processing of one `apps:property` child.  The source reads
`child.attrib['name']`, adds it to the property-name set, then dispatches on
the name; every branch of the dispatch (including the final
`print('unknown property: ...')`) also reads `child.attrib['value']`, so that
lookup is hoisted before the dispatch.  Returns the property name on
success. -/
def propertyValueCheck (name v : String) : Except PyError Unit :=
  if name == "from" then assertB (v.length > 0)
  else if name == "label" then assertB (v.length > 0)
  else if name == "shouldArchive" then assertB (v == "false")
  else if name == "shouldNeverSpam" then assertB (v == "true")
  else if name == "shouldStar" then assertB (v == "true")
  else if name == "shouldAlwaysMarkAsImportant" then assertB (v == "true")
  else if name == "sizeOperator" then assertB (v == "s_sl")
  else if name == "sizeUnit" then assertB (v == "s_smb")
  else Except.ok ()  -- line 78: prints the unknown name/value, no assertion

def checkPropertyChild (child : Node) : Except PyError String := do
  let name ← attribIndex child "name"
  let v ← attribIndex child "value"
  let _ ← propertyValueCheck name v
  pure name

/-- Lines 44-80: the body of the per-child loop.  The state is the pair of the
accumulated `entry_tags` and `entry_properties` sets (modelled as lists; the
tag is added before the dispatch, line 45, and the property name before its
value checks, line 57).  Children with a tag the dispatch does not know only
cause a `print` (line 80). -/
def processChild (st : List String × List String) (child : Node) :
    Except PyError (List String × List String) :=
  if child.tag == categoryTag then do
    let term ← attribIndex child "term"
    let _ ← assertB (term == "filter")
    pure (child.tag :: st.1, st.2)
  else if child.tag == titleTag then do
    let _ ← assertB (child.text == some "Mail Filter")
    pure (child.tag :: st.1, st.2)
  else if child.tag == idTag then do
    let _ ← assertB (child.text matches some _ && (child.text.getD "").length > 0)
    pure (child.tag :: st.1, st.2)
  else if child.tag == updatedTag then do
    let _ ← assertB (child.text matches some _ && (child.text.getD "").length > 0)
    pure (child.tag :: st.1, st.2)
  else if child.tag == contentTag then do
    let _ ← assertB (child.text matches none)
    pure (child.tag :: st.1, st.2)
  else if child.tag == propertyTag then do
    let name ← checkPropertyChild child
    pure (child.tag :: st.1, name :: st.2)
  else
    pure (child.tag :: st.1, st.2)  -- line 80: prints the unknown tag

/-- Lines 44-80: the per-child loop, threading the accumulated state; the
first exception aborts the loop. -/
def processChildren : List Node → List String × List String →
    Except PyError (List String × List String)
  | [], st => Except.ok st
  | c :: rest, st => do
    let st' ← processChild st c
    processChildren rest st'

/-- Lines 41-83 for one entry: run the per-child loop, then assert that the
accumulated tag and property-name sets are supersets of the required ones
(`issuperset` on a Python set is membership of every required element). -/
def checkEntry (entry : Node) : Except PyError Unit := do
  let st ← processChildren entry.children ([], [])
  let _ ← assertB (required_filter_entry_tags.all st.1.contains)
  assertB (required_filter_entry_properties.all st.2.contains)

/-- Line 40/98: `xml_root.findall('\x7bdefault\x7dentry')` returns the direct
children whose tag is the entry tag, in document order. -/
def findEntries (root : Node) : List Node :=
  root.children.filter (fun c => c.tag == entryTag)

/-- Line 41: the loop over all entries; the first raised exception aborts the
whole function. -/
def checkEntries : List Node → Except PyError Unit
  | [] => Except.ok ()
  | e :: rest => do
    let _ ← checkEntry e
    checkEntries rest

/-- Lines 24-83: validate every top-level entry. -/
def check_filter_entity_properties (root : Node) : Except PyError Unit :=
  checkEntries (findEntries root)

/-- Lines 88-92: the scan of `get_filter_entry_label`.  Only children with the
property tag are inspected; the loop breaks at the first one whose `name`
attribute is `"label"`, returning its `value` attribute (both lookups may
raise `KeyError`); if no such child exists the initial `''` survives. -/
def findLabelLoop : List Node → Except PyError String
  | [] => Except.ok ""
  | c :: rest =>
    if c.tag == propertyTag then do
      let name ← attribIndex c "name"
      if name == "label" then attribIndex c "value"
      else findLabelLoop rest
    else findLabelLoop rest

/-- Lines 86-94: extract the label of an entry and assert it is non-empty. -/
def get_filter_entry_label (entry : Node) : Except PyError String := do
  let label ← findLabelLoop entry.children
  let _ ← assertB (label.length > 0)
  pure label

/-- Comparison used by the sort on (label, entry) pairs: Python's
`list.sort(key=...)` orders by the key with ordinary code-point string
comparison. -/
def pairLe (p q : String × Node) : Prop := p.1 ≤ q.1

instance : DecidableRel pairLe := fun p q => inferInstanceAs (Decidable (p.1 ≤ q.1))

/-- Stable sort of (label, entry) pairs by label.  Python's `list.sort` is a
stable sort by the key; `List.insertionSort` with `pairLe` is a stable sort by
the first component. -/
def sortPairs (pairs : List (String × Node)) : List (String × Node) :=
  List.insertionSort pairLe pairs

/-- Lines 97-102: compute every entry's label (`sort` evaluates the key
function on every element first; an assertion failure there propagates), sort
the entries stably by label, then remove each entry from the root and
re-append it.  `list.remove` removes by identity for `Element` objects, so the
net effect on the child list is: non-entry children keep their relative
positions, and the entries reappear at the end in sorted order.  First, line
99: evaluation of the sort key on every entry, left to right; an assertion
failure in `get_filter_entry_label` propagates out of `sort`. -/
def mapLabels : List Node → Except PyError (List String)
  | [] => Except.ok []
  | e :: rest => do
    let l ← get_filter_entry_label e
    let ls ← mapLabels rest
    pure (l :: ls)

/-- Lines 97-102 continued: the sort and the remove/re-append loop. -/
def sort_filter_entries_by_label (root : Node) : Except PyError Node := do
  let entries := findEntries root
  let labels ← mapLabels entries
  let sorted := (sortPairs (labels.zip entries)).map Prod.snd
  pure (Node.mk root.tag root.attrib root.text
    (root.children.filter (fun c => !(c.tag == entryTag)) ++ sorted))

/-- Lines 134-142: the document-transforming core of `main`.  Validation runs
first; any exception aborts the run before `write_xml_root` is reached, so no
output document is produced.  On success the reordered document is the one
written. -/
def runMain (root : Node) : Except PyError Node := do
  let _ ← check_filter_entity_properties root
  sort_filter_entries_by_label root

/-- Tags of the direct children of an entry, in order. -/
def childTags (entry : Node) : List String :=
  entry.children.map Node.tag

/-- Property names carried by the property-tagged direct children of an entry
(children without a `name` attribute contribute nothing). -/
def childPropNames (entry : Node) : List String :=
  entry.children.filterMap (fun c => if c.tag == propertyTag then getAttr c "name" else none)

/-- Value of the first property-tagged child whose `name` attribute is
`"label"` (its `value` attribute, when present). -/
def firstLabelValue (cs : List Node) : Option String :=
  (cs.find? (fun c => c.tag == propertyTag && getAttr c "name" == some "label")).bind
    (fun c => getAttr c "value")

/-- Property names the dispatch of lines 58-76 knows; any other name reaches
the `print('unknown property: ...')` branch. -/
def knownPropertyNames : List String :=
  ["from", "label", "shouldArchive", "shouldNeverSpam", "shouldStar",
   "shouldAlwaysMarkAsImportant", "sizeOperator", "sizeUnit"]

/-- Tags the dispatch of lines 46-80 knows; any other tag reaches the
`print('unknown tag: ...')` branch. -/
def handledTags : List String :=
  [categoryTag, titleTag, idTag, updatedTag, contentTag, propertyTag]

/-- Modelled from the spec: the closed assertion language of §4.3 and §9 — a
boolean predicate over one concrete value or absence: "non-emptiness, exact
string equality" and "is-absent".  This part of the rule-driven evaluator is
in the repository version that is not under `src/`. -/
inductive SpecAssertion : Type where
  | nonEmpty : SpecAssertion
  | equalsLit (s : String) : SpecAssertion
  | isAbsent : SpecAssertion

/-- Modelled from the spec: evaluation of one assertion against a value or
its absence (§4.3 step 3). -/
def evalAssertion : SpecAssertion → Option String → Bool
  | SpecAssertion.nonEmpty, some s => s.length > 0
  | SpecAssertion.nonEmpty, none => false
  | SpecAssertion.equalsLit t, some s => s == t
  | SpecAssertion.equalsLit _, none => false
  | SpecAssertion.isAbsent, v => v.isNone

/-- Modelled from the spec: a rule definition maps a child-kind identity to a
single assertion or to a nested mapping from property name to assertion
(§3, "Rule Definition"). -/
inductive SpecRule : Type where
  | single (a : SpecAssertion) : SpecRule
  | perProperty (m : List (String × SpecAssertion)) : SpecRule

/-- Modelled from the spec: the diagnostic kinds of §7. -/
inductive SpecDiagnostic : Type where
  | unknownElement (tag : String) : SpecDiagnostic
  | unknownProperty (nm : String) : SpecDiagnostic
  | assertionFailed (which : String) : SpecDiagnostic
  | missingElement (tag : String) : SpecDiagnostic
  | missingProperty (nm : String) : SpecDiagnostic

/-- Modelled from the spec: the per-entry result of §4.3 — "skipped" for
ignored entries, otherwise the aggregated diagnostics. -/
inductive ValidationResult : Type where
  | skipped : ValidationResult
  | checked (diagnostics : List SpecDiagnostic) : ValidationResult

/-- Lookup of the rule for a child kind. -/
def lookupRule (rules : List (String × SpecRule)) (t : String) : Option SpecRule :=
  ((rules.find? (fun p => p.1 == t)).map (fun p => p.2))

/-- Modelled from the spec: §4.3 step 2 for one direct child — unknown kind,
unknown property name, or evaluation of the associated assertion. -/
def validateChild (rules : List (String × SpecRule)) (c : Node) : List SpecDiagnostic :=
  match lookupRule rules c.tag with
  | none => [SpecDiagnostic.unknownElement c.tag]
  | some (SpecRule.single a) =>
    if evalAssertion a c.text then [] else [SpecDiagnostic.assertionFailed c.tag]
  | some (SpecRule.perProperty m) =>
    let nm := (getAttr c "name").getD ""
    match (m.find? (fun p => p.1 == nm)).map (fun p => p.2) with
    | none => [SpecDiagnostic.unknownProperty nm]
    | some a =>
      if evalAssertion a (getAttr c "value") then [] else [SpecDiagnostic.assertionFailed nm]

/-- Modelled from the spec: the expected child kinds — the keys of the rule
mapping (§4.3 step 4). -/
def expectedKinds (rules : List (String × SpecRule)) : List String :=
  rules.map (fun p => p.1)

/-- Modelled from the spec: the expected property names — the keys of the
nested per-property rule sets (§4.3 step 4). -/
def expectedPropNames (rules : List (String × SpecRule)) : List String :=
  (rules.map (fun p =>
    match p.2 with
    | SpecRule.perProperty m => m.map (fun q => q.1)
    | SpecRule.single _ => [])).flatten

/-- Modelled from the spec: the encountered property names — names of the
children whose kind maps to a per-property rule set (§4.3 step 4). -/
def encounteredPropNames (rules : List (String × SpecRule)) (entry : Node) : List String :=
  entry.children.filterMap (fun c =>
    match lookupRule rules c.tag with
    | some (SpecRule.perProperty _) => getAttr c "name"
    | _ => none)

/-- Modelled from the spec: `validate_entry(entry, rules, ignore_list)` of
§4.3 — the rule-driven per-entry evaluator with ignore-list support, which is
in the repository version that is not under `src/`.  Step 1: if the extracted
label is in the ignore list, return "skipped" with no further checks (label
extraction itself, §4.2, is the one of the source and aborts on a missing or
empty label).  Steps 2-5: evaluate every direct child, then add a diagnostic
for every expected-but-missing kind and property name, aggregating everything
into one result. -/
def validate_entry (rules : List (String × SpecRule)) (ignore_list : List String)
    (entry : Node) : Except PyError ValidationResult := do
  let label ← get_filter_entry_label entry
  if ignore_list.contains label then
    pure ValidationResult.skipped
  else
    let childDiags := (entry.children.map (validateChild rules)).flatten
    let missingK := ((expectedKinds rules).filter
      (fun t => !((childTags entry).contains t))).map SpecDiagnostic.missingElement
    let missingP := ((expectedPropNames rules).filter
      (fun p => !((encounteredPropNames rules entry).contains p))).map
        SpecDiagnostic.missingProperty
    pure (ValidationResult.checked (childDiags ++ missingK ++ missingP))

/-! ### Basic lemmas about the `Except` embedding -/

theorem exceptBind_ok {α β : Type} {x : Except PyError α} {f : α → Except PyError β} {b : β} :
    (x >>= f) = Except.ok b ↔ ∃ a, x = Except.ok a ∧ f a = Except.ok b := by
  cases x <;> simp [Bind.bind, Except.bind]

theorem exceptBind_error {α β : Type} {x : Except PyError α} {f : α → Except PyError β}
    {e : PyError} :
    (x >>= f) = Except.error e ↔
      x = Except.error e ∨ ∃ a, x = Except.ok a ∧ f a = Except.error e := by
  cases x <;> simp [Bind.bind, Except.bind]

theorem purePyE_eq_ok {α : Type} (a : α) : (pure a : Except PyError α) = Except.ok a := rfl

theorem assertB_ok {b : Bool} {u : Unit} : assertB b = Except.ok u ↔ b = true := by
  cases b <;> simp [assertB]

theorem assertB_error {b : Bool} {e : PyError} :
    assertB b = Except.error e ↔ b = false ∧ e = PyError.assertionError := by
  cases b <;> simp [assertB, eq_comm]

theorem attribIndex_ok {n : Node} {k v : String} :
    attribIndex n k = Except.ok v ↔ getAttr n k = some v := by
  unfold attribIndex
  cases h : getAttr n k <;> simp

theorem attribIndex_error {n : Node} {k : String} {e : PyError} :
    attribIndex n k = Except.error e ↔ getAttr n k = none ∧ e = PyError.keyError k := by
  unfold attribIndex
  cases h : getAttr n k <;> simp [eq_comm]

/-! ### Lemmas about the per-child loop -/

theorem checkPropertyChild_ok {c : Node} {n : String}
    (h : checkPropertyChild c = Except.ok n) :
    getAttr c "name" = some n ∧
      ∃ v, getAttr c "value" = some v ∧ (n = "label" → v.length > 0) := by
  unfold checkPropertyChild at h
  obtain ⟨nm, hnm, h⟩ := exceptBind_ok.mp h
  obtain ⟨v, hv, h⟩ := exceptBind_ok.mp h
  obtain ⟨u, hu, h⟩ := exceptBind_ok.mp h
  have hnn : nm = n := by
    rw [purePyE_eq_ok] at h
    exact (Except.ok.injEq _ _).mp h
  subst hnn
  refine ⟨attribIndex_ok.mp hnm, v, attribIndex_ok.mp hv, fun hl => ?_⟩
  subst hl
  unfold propertyValueCheck at hu
  simp only [show (("label" : String) == "from") = false from by decide,
    show (("label" : String) == "label") = true from by decide,
    Bool.false_eq_true, if_false, if_true, assertB_ok, decide_eq_true_eq] at hu
  exact hu

theorem processChild_ok_tags {st st' : List String × List String} {c : Node}
    (h : processChild st c = Except.ok st') : st'.1 = c.tag :: st.1 := by
  unfold processChild at h
  repeat' split at h
  all_goals try obtain ⟨a, ha, h⟩ := exceptBind_ok.mp h
  all_goals try obtain ⟨u, hu, h⟩ := exceptBind_ok.mp h
  all_goals rw [purePyE_eq_ok] at h
  all_goals cases h
  all_goals rfl

theorem processChild_ok_props {st st' : List String × List String} {c : Node}
    (h : processChild st c = Except.ok st') :
    st'.2 = st.2 ∨
      ∃ n, st'.2 = n :: st.2 ∧ c.tag = propertyTag ∧ getAttr c "name" = some n := by
  unfold processChild at h
  repeat' split at h
  all_goals try obtain ⟨a, ha, h⟩ := exceptBind_ok.mp h
  all_goals try obtain ⟨u, hu, h⟩ := exceptBind_ok.mp h
  all_goals rw [purePyE_eq_ok] at h
  all_goals cases h
  all_goals try (left; rfl)
  right
  rename_i h1 h2 h3 h4 h5 htag
  exact ⟨a, rfl, by simpa using htag, (checkPropertyChild_ok ha).1⟩

theorem processChild_property_ok {st st' : List String × List String} {c : Node}
    (h : processChild st c = Except.ok st') (htag : c.tag = propertyTag) :
    ∃ n, checkPropertyChild c = Except.ok n := by
  unfold processChild at h
  rw [htag] at h
  simp only [show (propertyTag == categoryTag) = false from by decide,
    show (propertyTag == titleTag) = false from by decide,
    show (propertyTag == idTag) = false from by decide,
    show (propertyTag == updatedTag) = false from by decide,
    show (propertyTag == contentTag) = false from by decide,
    show (propertyTag == propertyTag) = true from by decide,
    Bool.false_eq_true, if_false, if_true] at h
  obtain ⟨n, hn, _⟩ := exceptBind_ok.mp h
  exact ⟨n, hn⟩

theorem processChildren_ok_mem_tags {cs : List Node} {st st' : List String × List String}
    (h : processChildren cs st = Except.ok st') :
    ∀ x ∈ st'.1, x ∈ st.1 ∨ x ∈ cs.map Node.tag := by
  induction cs generalizing st with
  | nil =>
    unfold processChildren at h
    cases h
    exact fun x hx => Or.inl hx
  | cons c rest ih =>
    unfold processChildren at h
    obtain ⟨st1, h1, h2⟩ := exceptBind_ok.mp h
    intro x hx
    rcases ih h2 x hx with hx1 | hx2
    · rw [processChild_ok_tags h1] at hx1
      rcases List.mem_cons.mp hx1 with rfl | hx0
      · exact Or.inr (by simp)
      · exact Or.inl hx0
    · exact Or.inr (List.mem_cons_of_mem _ hx2)

theorem processChildren_ok_mem_props {cs : List Node} {st st' : List String × List String}
    (h : processChildren cs st = Except.ok st') :
    ∀ x ∈ st'.2, x ∈ st.2 ∨
      ∃ c ∈ cs, c.tag = propertyTag ∧ getAttr c "name" = some x := by
  induction cs generalizing st with
  | nil =>
    unfold processChildren at h
    cases h
    exact fun x hx => Or.inl hx
  | cons c rest ih =>
    unfold processChildren at h
    obtain ⟨st1, h1, h2⟩ := exceptBind_ok.mp h
    intro x hx
    rcases ih h2 x hx with hx1 | ⟨c', hc', hp, hn⟩
    · rcases processChild_ok_props h1 with heq | ⟨n, heq, hp, hn⟩
      · exact Or.inl (heq ▸ hx1)
      · rw [heq] at hx1
        rcases List.mem_cons.mp hx1 with rfl | hx0
        · exact Or.inr ⟨c, List.mem_cons_self c rest, hp, hn⟩
        · exact Or.inl hx0
    · exact Or.inr ⟨c', List.mem_cons_of_mem _ hc', hp, hn⟩

theorem processChildren_ok_each {cs : List Node} {st st' : List String × List String}
    (h : processChildren cs st = Except.ok st') :
    ∀ c ∈ cs, ∃ s s', processChild s c = Except.ok s' := by
  induction cs generalizing st with
  | nil => intro c hc; cases hc
  | cons c0 rest ih =>
    unfold processChildren at h
    obtain ⟨st1, h1, h2⟩ := exceptBind_ok.mp h
    intro c hc
    rcases List.mem_cons.mp hc with rfl | hc0
    · exact ⟨st, st1, h1⟩
    · exact ih h2 c hc0

theorem checkEntry_ok_iff {e : Node} :
    checkEntry e = Except.ok () ↔
      ∃ st, processChildren e.children ([], []) = Except.ok st ∧
        required_filter_entry_tags.all st.1.contains = true ∧
        required_filter_entry_properties.all st.2.contains = true := by
  unfold checkEntry
  constructor
  · intro h
    obtain ⟨st, h1, h⟩ := exceptBind_ok.mp h
    obtain ⟨u, hu, h⟩ := exceptBind_ok.mp h
    exact ⟨st, h1, assertB_ok.mp hu, assertB_ok.mp h⟩
  · rintro ⟨st, h1, h2, h3⟩
    rw [exceptBind_ok]
    exact ⟨st, h1, exceptBind_ok.mpr ⟨(), assertB_ok.mpr h2, assertB_ok.mpr h3⟩⟩

theorem checkEntries_ok_iff {es : List Node} :
    checkEntries es = Except.ok () ↔ ∀ e ∈ es, checkEntry e = Except.ok () := by
  induction es with
  | nil => simp [checkEntries]
  | cons e rest ih =>
    unfold checkEntries
    rw [exceptBind_ok]
    constructor
    · rintro ⟨u, hu, h⟩
      intro e' he'
      rcases List.mem_cons.mp he' with rfl | he0
      · cases u; exact hu
      · exact ih.mp h e' he0
    · intro h
      exact ⟨(), h e (List.mem_cons_self e rest),
        ih.mpr (fun e' he' => h e' (List.mem_cons_of_mem _ he'))⟩

theorem exceptUnit_not_ok {x : Except PyError Unit} (h : x ≠ Except.ok ()) :
    ∃ e, x = Except.error e := by
  cases x with
  | error e => exact ⟨e, rfl⟩
  | ok u => cases u; exact absurd rfl h

/-! ### Lemmas about the stable sort -/

instance : IsTotal (String × Node) pairLe :=
  ⟨fun p q => le_total p.1 q.1⟩

instance : IsTrans (String × Node) pairLe :=
  ⟨fun _ _ _ h1 h2 => le_trans h1 h2⟩

/-- Test used to state stability: does this entry's extracted label equal
`k`? -/
def labelIs (e : Node) (k : String) : Bool :=
  match get_filter_entry_label e with
  | Except.ok l => l == k
  | Except.error _ => false

theorem filter_key_orderedInsert (k : String) (p : String × Node) (l : List (String × Node)) :
    (List.orderedInsert pairLe p l).filter (fun q => q.1 == k) =
      if p.1 == k then p :: l.filter (fun q => q.1 == k)
      else l.filter (fun q => q.1 == k) := by
  induction l with
  | nil =>
    by_cases hp : (p.1 == k) = true <;> simp [List.orderedInsert, hp]
  | cons b l ih =>
    unfold List.orderedInsert
    by_cases hle : pairLe p b
    · rw [if_pos hle]
      by_cases hp : (p.1 == k) = true <;> simp [List.filter_cons, hp]
    · rw [if_neg hle]
      by_cases hb : (b.1 == k) = true
      · have hp : (p.1 == k) = false := by
          rw [beq_eq_false_iff_ne]
          intro hpk
          exact hle (show p.1 ≤ b.1 from le_of_eq (hpk.trans (eq_of_beq hb).symm))
        simp [List.filter_cons, hb, hp, ih]
      · by_cases hp : (p.1 == k) = true <;> simp [List.filter_cons, hb, hp, ih]

theorem filter_key_sortPairs (k : String) (l : List (String × Node)) :
    (sortPairs l).filter (fun q => q.1 == k) = l.filter (fun q => q.1 == k) := by
  unfold sortPairs
  induction l with
  | nil => rfl
  | cons p l ih =>
    show (List.orderedInsert pairLe p (List.insertionSort pairLe l)).filter _ = _
    rw [filter_key_orderedInsert]
    by_cases hp : (p.1 == k) = true <;> simp [List.filter_cons, hp, ih]

/-- Every pair in a list of (label, entry) pairs really carries the label of
its entry. -/
def goodPairs (l : List (String × Node)) : Prop :=
  ∀ p ∈ l, get_filter_entry_label p.2 = Except.ok p.1

theorem goodPairs_sortPairs {l : List (String × Node)} (h : goodPairs l) :
    goodPairs (sortPairs l) :=
  fun p hp => h p ((List.mem_insertionSort pairLe).mp hp)

theorem mapLabels_ok_length {es : List Node} {ls : List String}
    (h : mapLabels es = Except.ok ls) : ls.length = es.length := by
  induction es generalizing ls with
  | nil =>
    unfold mapLabels at h
    cases h
    rfl
  | cons e rest ih =>
    unfold mapLabels at h
    obtain ⟨l, h1, h⟩ := exceptBind_ok.mp h
    obtain ⟨ls', h2, h⟩ := exceptBind_ok.mp h
    rw [purePyE_eq_ok] at h
    cases h
    simp [ih h2]

theorem mapLabels_zip_good {es : List Node} {ls : List String}
    (h : mapLabels es = Except.ok ls) : goodPairs (ls.zip es) := by
  induction es generalizing ls with
  | nil =>
    unfold mapLabels at h
    cases h
    intro p hp
    cases hp
  | cons e rest ih =>
    unfold mapLabels at h
    obtain ⟨l, h1, h⟩ := exceptBind_ok.mp h
    obtain ⟨ls', h2, h⟩ := exceptBind_ok.mp h
    rw [purePyE_eq_ok] at h
    cases h
    intro p hp
    rcases List.mem_cons.mp hp with rfl | hp0
    · exact h1
    · exact ih h2 p hp0

theorem mapLabels_of_all_ok {es : List Node}
    (h : ∀ e ∈ es, ∃ l, get_filter_entry_label e = Except.ok l) :
    ∃ ls, mapLabels es = Except.ok ls := by
  induction es with
  | nil => exact ⟨[], rfl⟩
  | cons e rest ih =>
    obtain ⟨l, hl⟩ := h e (List.mem_cons_self e rest)
    obtain ⟨ls, hls⟩ := ih (fun e' he' => h e' (List.mem_cons_of_mem _ he'))
    refine ⟨l :: ls, ?_⟩
    unfold mapLabels
    rw [exceptBind_ok]
    exact ⟨l, hl, exceptBind_ok.mpr ⟨ls, hls, rfl⟩⟩

theorem mapLabels_of_good {l : List (String × Node)} (h : goodPairs l) :
    mapLabels (l.map Prod.snd) = Except.ok (l.map Prod.fst) := by
  induction l with
  | nil => rfl
  | cons p rest ih =>
    show mapLabels (p.2 :: rest.map Prod.snd) = _
    unfold mapLabels
    rw [exceptBind_ok]
    refine ⟨p.1, h p (List.mem_cons_self p rest), ?_⟩
    rw [exceptBind_ok]
    exact ⟨rest.map Prod.fst, ih (fun q hq => h q (List.mem_cons_of_mem _ hq)), rfl⟩

theorem filter_labelIs_of_good {l : List (String × Node)} (h : goodPairs l) (k : String) :
    (l.map Prod.snd).filter (fun e => labelIs e k) =
      (l.filter (fun q => q.1 == k)).map Prod.snd := by
  induction l with
  | nil => rfl
  | cons p rest ih =>
    have hp : labelIs p.2 k = (p.1 == k) := by
      unfold labelIs
      rw [h p (List.mem_cons_self p rest)]
    have ihr := ih (fun q hq => h q (List.mem_cons_of_mem _ hq))
    by_cases hk : (p.1 == k) = true <;>
      simp [List.filter_cons, hp, hk, ihr]

/-! ### Decomposition of the document-level sort -/

theorem sort_ok_decomp {root root' : Node}
    (h : sort_filter_entries_by_label root = Except.ok root') :
    ∃ ls, mapLabels (findEntries root) = Except.ok ls ∧
      root' = Node.mk root.tag root.attrib root.text
        (root.children.filter (fun c => !(c.tag == entryTag)) ++
          (sortPairs (ls.zip (findEntries root))).map Prod.snd) := by
  unfold sort_filter_entries_by_label at h
  obtain ⟨ls, h1, h2⟩ := exceptBind_ok.mp h
  rw [purePyE_eq_ok] at h2
  cases h2
  exact ⟨ls, h1, rfl⟩

theorem tag_of_mem_findEntries {root : Node} : ∀ x ∈ findEntries root, x.tag = entryTag := by
  intro x hx
  unfold findEntries at hx
  have hb := (List.mem_filter.mp hx).2
  exact eq_of_beq hb

theorem sortPairs_sorted (l : List (String × Node)) : List.Sorted pairLe (sortPairs l) :=
  List.sorted_insertionSort pairLe l

theorem sortPairs_of_sorted {l : List (String × Node)} (h : List.Sorted pairLe l) :
    sortPairs l = l :=
  h.insertionSort_eq

theorem entryTag_of_mem_sorted {ls : List String} {es : List Node} {e : Node}
    (hes : ∀ x ∈ es, x.tag = entryTag)
    (he : e ∈ (sortPairs (ls.zip es)).map Prod.snd) : e.tag = entryTag := by
  obtain ⟨p, hp, rfl⟩ := List.mem_map.mp he
  exact hes p.2 (List.of_mem_zip ((List.mem_insertionSort pairLe).mp hp)).2

theorem filter_entry_all (so : List Node) (hso : ∀ c ∈ so, c.tag = entryTag) :
    so.filter (fun c => c.tag == entryTag) = so :=
  List.filter_eq_self.mpr fun c hc => by simp [hso c hc]

theorem filter_entry_none (ne : List Node) (hne : ∀ c ∈ ne, ¬c.tag = entryTag) :
    ne.filter (fun c => c.tag == entryTag) = [] :=
  List.filter_eq_nil_iff.mpr fun c hc => by simp [hne c hc]

theorem filter_nonentry_all (ne : List Node) (hne : ∀ c ∈ ne, ¬c.tag = entryTag) :
    ne.filter (fun c => !(c.tag == entryTag)) = ne :=
  List.filter_eq_self.mpr fun c hc => by simp [hne c hc]

theorem filter_nonentry_none (so : List Node) (hso : ∀ c ∈ so, c.tag = entryTag) :
    so.filter (fun c => !(c.tag == entryTag)) = [] :=
  List.filter_eq_nil_iff.mpr fun c hc => by simp [hso c hc]

theorem not_entry_of_mem_nonentries {root : Node} :
    ∀ c ∈ root.children.filter (fun c => !(c.tag == entryTag)), ¬c.tag = entryTag := by
  intro c hc
  have := List.of_mem_filter hc
  simp at this
  simp [this]

theorem findEntries_mk (t : String) (a : List (String × String)) (x : Option String)
    (ne so : List Node)
    (hne : ∀ c ∈ ne, ¬c.tag = entryTag) (hso : ∀ c ∈ so, c.tag = entryTag) :
    findEntries (Node.mk t a x (ne ++ so)) = so := by
  unfold findEntries
  simp only [Node.children_mk]
  rw [List.filter_append, filter_entry_none _ hne, filter_entry_all _ hso]
  rfl

theorem findEntries_output {root : Node} {ls : List String} :
    findEntries (Node.mk root.tag root.attrib root.text
        (root.children.filter (fun c => !(c.tag == entryTag)) ++
          (sortPairs (ls.zip (findEntries root))).map Prod.snd)) =
      (sortPairs (ls.zip (findEntries root))).map Prod.snd :=
  findEntries_mk _ _ _ _ _ not_entry_of_mem_nonentries
    (fun _ hc => entryTag_of_mem_sorted tag_of_mem_findEntries hc)

theorem zip_fst_snd (l : List (String × Node)) :
    (l.map Prod.fst).zip (l.map Prod.snd) = l := by
  induction l with
  | nil => rfl
  | cons p rest ih => simp [ih]

/-! ### Claim theorems C2, C3, C4 -/

/-- C2: for every input document, after the sort step the sequence of
top-level entries has labels in lexicographically (code-point) non-decreasing
order, and any two entries with equal labels keep their original relative
order (the sort is stable, stated as: for every label `k`, the subsequence of
entries whose label is `k` is unchanged). -/
theorem sorted_output_labels_monotone_and_stable (root root' : Node)
    (h : sort_filter_entries_by_label root = Except.ok root') :
    (∃ ls, mapLabels (findEntries root') = Except.ok ls ∧
      List.Sorted (fun a b : String => a ≤ b) ls) ∧
    ∀ k, (findEntries root').filter (fun e => labelIs e k) =
      (findEntries root).filter (fun e => labelIs e k) := by
  obtain ⟨ls, hml, rfl⟩ := sort_ok_decomp h
  have hlen : ls.length = (findEntries root).length := mapLabels_ok_length hml
  have hgood : goodPairs (ls.zip (findEntries root)) := mapLabels_zip_good hml
  have hgoodS : goodPairs (sortPairs (ls.zip (findEntries root))) := goodPairs_sortPairs hgood
  have hfe := @findEntries_output root ls
  constructor
  · refine ⟨(sortPairs (ls.zip (findEntries root))).map Prod.fst, ?_, ?_⟩
    · rw [hfe]
      exact mapLabels_of_good hgoodS
    · exact (List.sorted_insertionSort pairLe (ls.zip (findEntries root))).map
        Prod.fst (fun a b hab => hab)
  · intro k
    rw [hfe, filter_labelIs_of_good hgoodS k, filter_key_sortPairs k,
      ← filter_labelIs_of_good hgood k,
      List.map_snd_zip _ _ (le_of_eq hlen.symm)]

/-- C3: the reorder step is idempotent — if reordering a document succeeds,
reordering the result leaves it unchanged, so applying the step twice yields
the same document as applying it once. -/
theorem sort_filter_entries_idempotent (root root' : Node)
    (h : sort_filter_entries_by_label root = Except.ok root') :
    sort_filter_entries_by_label root' = Except.ok root' := by
  obtain ⟨ls, hml, rfl⟩ := sort_ok_decomp h
  have hgood : goodPairs (ls.zip (findEntries root)) := mapLabels_zip_good hml
  have hgoodS : goodPairs (sortPairs (ls.zip (findEntries root))) := goodPairs_sortPairs hgood
  have hfe := @findEntries_output root ls
  show (mapLabels (findEntries _) >>= fun labels => _) = _
  rw [exceptBind_ok]
  refine ⟨(sortPairs (ls.zip (findEntries root))).map Prod.fst,
    by rw [hfe]; exact mapLabels_of_good hgoodS, ?_⟩
  rw [purePyE_eq_ok, hfe, zip_fst_snd, sortPairs_of_sorted (sortPairs_sorted _),
    Except.ok.injEq]
  simp only [Node.tag_mk, Node.attrib_mk, Node.text_mk, Node.children_mk]
  rw [List.filter_append,
    filter_nonentry_all _ not_entry_of_mem_nonentries,
    filter_nonentry_none _ (fun c hc => entryTag_of_mem_sorted tag_of_mem_findEntries hc),
    List.append_nil]

/-- C4: the reorder step changes only the placement of top-level entry nodes:
the root's tag, attributes and text are unchanged, the subsequence of
non-entry children (their identity, content and relative order) is unchanged,
and the entries of the result are a permutation (same multiset, each with its
whole subtree) of the entries of the input. -/
theorem sort_preserves_nonentries_and_entry_multiset (root root' : Node)
    (h : sort_filter_entries_by_label root = Except.ok root') :
    root'.tag = root.tag ∧ root'.attrib = root.attrib ∧ root'.text = root.text ∧
    root'.children.filter (fun c => !(c.tag == entryTag)) =
      root.children.filter (fun c => !(c.tag == entryTag)) ∧
    (findEntries root').Perm (findEntries root) := by
  obtain ⟨ls, hml, rfl⟩ := sort_ok_decomp h
  have hlen : ls.length = (findEntries root).length := mapLabels_ok_length hml
  refine ⟨rfl, rfl, rfl, ?_, ?_⟩
  · simp only [Node.children_mk]
    rw [List.filter_append,
      filter_nonentry_all _ not_entry_of_mem_nonentries,
      filter_nonentry_none _ (fun c hc => entryTag_of_mem_sorted tag_of_mem_findEntries hc),
      List.append_nil]
  · rw [findEntries_output]
    have h1 : ((sortPairs (ls.zip (findEntries root))).map Prod.snd).Perm
        ((ls.zip (findEntries root)).map Prod.snd) :=
      (List.perm_insertionSort pairLe _).map Prod.snd
    rwa [List.map_snd_zip _ _ (le_of_eq hlen.symm)] at h1

/-! ### Error propagation through the checker -/

theorem processChildren_head_error {c : Node} {rest : List Node}
    {st : List String × List String} {e : PyError}
    (h : processChild st c = Except.error e) :
    processChildren (c :: rest) st = Except.error e := by
  unfold processChildren
  rw [h]
  rfl

theorem checkEntry_head_error {t : String} {a : List (String × String)} {x : Option String}
    {c : Node} {rest : List Node} {e : PyError}
    (h : processChild ([], []) c = Except.error e) :
    checkEntry (Node.mk t a x (c :: rest)) = Except.error e := by
  unfold checkEntry
  simp only [Node.children_mk]
  rw [processChildren_head_error h]
  rfl

theorem processChild_category_noterm {st : List String × List String} {c : Node}
    (htag : c.tag = categoryTag) (hterm : getAttr c "term" = none) :
    processChild st c = Except.error (PyError.keyError "term") := by
  unfold processChild
  rw [htag, if_pos (by decide : (categoryTag == categoryTag) = true)]
  rw [show attribIndex c "term" = Except.error (PyError.keyError "term") from
    attribIndex_error.mpr ⟨hterm, rfl⟩]
  rfl

theorem processChild_property_error {st : List String × List String} {c : Node} {e : PyError}
    (htag : c.tag = propertyTag) (h : checkPropertyChild c = Except.error e) :
    processChild st c = Except.error e := by
  unfold processChild
  rw [htag,
    if_neg (by decide : ¬(propertyTag == categoryTag) = true),
    if_neg (by decide : ¬(propertyTag == titleTag) = true),
    if_neg (by decide : ¬(propertyTag == idTag) = true),
    if_neg (by decide : ¬(propertyTag == updatedTag) = true),
    if_neg (by decide : ¬(propertyTag == contentTag) = true),
    if_pos (by decide : (propertyTag == propertyTag) = true)]
  rw [h]
  rfl

theorem checkPropertyChild_noname {c : Node} (h : getAttr c "name" = none) :
    checkPropertyChild c = Except.error (PyError.keyError "name") := by
  unfold checkPropertyChild
  rw [show attribIndex c "name" = Except.error (PyError.keyError "name") from
    attribIndex_error.mpr ⟨h, rfl⟩]
  rfl

theorem checkPropertyChild_novalue {c : Node} {nm : String} (hn : getAttr c "name" = some nm)
    (hv : getAttr c "value" = none) :
    checkPropertyChild c = Except.error (PyError.keyError "value") := by
  unfold checkPropertyChild
  rw [show attribIndex c "name" = Except.ok nm from attribIndex_ok.mpr hn,
    show attribIndex c "value" = Except.error (PyError.keyError "value") from
      attribIndex_error.mpr ⟨hv, rfl⟩]
  rfl

theorem findLabelLoop_head_noname {c : Node} {rest : List Node} (htag : c.tag = propertyTag)
    (h : getAttr c "name" = none) :
    findLabelLoop (c :: rest) = Except.error (PyError.keyError "name") := by
  unfold findLabelLoop
  rw [htag, if_pos (by decide : (propertyTag == propertyTag) = true)]
  rw [show attribIndex c "name" = Except.error (PyError.keyError "name") from
    attribIndex_error.mpr ⟨h, rfl⟩]
  rfl

theorem get_label_head_noname {t : String} {a : List (String × String)} {x : Option String}
    {c : Node} {rest : List Node} (htag : c.tag = propertyTag)
    (h : getAttr c "name" = none) :
    get_filter_entry_label (Node.mk t a x (c :: rest)) =
      Except.error (PyError.keyError "name") := by
  unfold get_filter_entry_label
  simp only [Node.children_mk]
  rw [findLabelLoop_head_noname htag h]
  rfl

/-! ### Claim theorems C7, C10, C8 -/

/-- C7: for every entry whose direct children lack one of the required child
kinds (category, title, id, updated, content, property) or one of the
required property names (from, label, shouldNeverSpam), validation of the
entry fails (the source realises `MissingElementError`/`MissingPropertyError`
as the failed superset assertions of lines 82-83), and the whole-document
check fails for any document containing such a top-level entry. -/
theorem missing_required_fails_validation (entry root : Node)
    (h : (∃ t ∈ required_filter_entry_tags, t ∉ childTags entry) ∨
      (∃ p ∈ required_filter_entry_properties, p ∉ childPropNames entry)) :
    checkEntry entry ≠ Except.ok () ∧
    (entry ∈ findEntries root → check_filter_entity_properties root ≠ Except.ok ()) := by
  have hmain : checkEntry entry ≠ Except.ok () := by
    intro hok
    rw [checkEntry_ok_iff] at hok
    obtain ⟨st, hps, h2, h3⟩ := hok
    rcases h with ⟨t, ht, htn⟩ | ⟨p, hp, hpn⟩
    · have hc := List.all_eq_true.mp h2 t ht
      have hmem : t ∈ st.1 := List.elem_iff.mp hc
      rcases processChildren_ok_mem_tags hps t hmem with h0 | h0
      · cases h0
      · exact htn h0
    · have hc := List.all_eq_true.mp h3 p hp
      have hmem : p ∈ st.2 := List.elem_iff.mp hc
      rcases processChildren_ok_mem_props hps p hmem with h0 | ⟨c, hcm, hct, hcn⟩
      · cases h0
      · refine hpn ?_
        unfold childPropNames
        refine List.mem_filterMap.mpr ⟨c, hcm, ?_⟩
        rw [if_pos (by simp [hct] : (c.tag == propertyTag) = true)]
        exact hcn
  refine ⟨hmain, fun hmem hok => ?_⟩
  unfold check_filter_entity_properties at hok
  exact hmain (checkEntries_ok_iff.mp hok entry hmem)

/-- C10: validation is not total over arbitrary node trees — a property child
without a `name` or `value` attribute, or a category child without a `term`
attribute, makes the checker raise `KeyError` from direct attribute
indexing (not one of the assertion-based diagnostics), and label extraction
uses the same indexing. -/
theorem attribute_keyerror_behavior (t : String) (a : List (String × String))
    (x : Option String) (c : Node) (rest : List Node) (nm : String) :
    (c.tag = categoryTag → getAttr c "term" = none →
      checkEntry (Node.mk t a x (c :: rest)) = Except.error (PyError.keyError "term")) ∧
    (c.tag = propertyTag → getAttr c "name" = none →
      checkEntry (Node.mk t a x (c :: rest)) = Except.error (PyError.keyError "name")) ∧
    (c.tag = propertyTag → getAttr c "name" = some nm → getAttr c "value" = none →
      checkEntry (Node.mk t a x (c :: rest)) = Except.error (PyError.keyError "value")) ∧
    (c.tag = propertyTag → getAttr c "name" = none →
      get_filter_entry_label (Node.mk t a x (c :: rest)) =
        Except.error (PyError.keyError "name")) := by
  refine ⟨fun h1 h2 => ?_, fun h1 h2 => ?_, fun h1 h2 h3 => ?_, fun h1 h2 => ?_⟩
  · exact checkEntry_head_error (processChild_category_noterm h1 h2)
  · exact checkEntry_head_error (processChild_property_error h1 (checkPropertyChild_noname h2))
  · exact checkEntry_head_error
      (processChild_property_error h1 (checkPropertyChild_novalue h2 h3))
  · exact get_label_head_noname h1 h2

/-- A property child with the given name and value attributes. -/
def propChild (nm v : String) : Node :=
  Node.mk propertyTag [("name", nm), ("value", v)] none []

/-- Entry with two rule violations: an empty `from` value (line 59 assertion)
and `shouldNeverSpam` ≠ "true" (line 66 assertion). -/
def cTwoViolations : Node :=
  Node.mk entryTag [] none [propChild "from" "", propChild "shouldNeverSpam" "false"]

/-- Entry with only the first of those two violations. -/
def cFirstViolationOnly : Node :=
  Node.mk entryTag [] none [propChild "from" "", propChild "shouldNeverSpam" "true"]

/-- C8 counterexample: per-entry validation does not collect all diagnostics
of an entry — on an entry with two distinct violations it stops at the first
failed assertion and yields exactly the same single failure as on an entry
whose second violation is fixed, so the second violation is never reported
(the third conjunct shows the second child is indeed violating on its
own). -/
theorem failfast_cex :
    checkEntry cTwoViolations = Except.error PyError.assertionError ∧
    checkEntry cTwoViolations = checkEntry cFirstViolationOnly ∧
    propertyValueCheck "shouldNeverSpam" "false" = Except.error PyError.assertionError :=
  ⟨rfl, rfl, rfl⟩

/-- C8 (amended): per-entry validation is fail-fast, not aggregating — when
the first child's checks raise an exception, the entry's validation stops
with exactly that failure, and its result is independent of all remaining
children (so later violations in the same entry are not examined or
reported). -/
theorem validation_fail_fast (t : String) (a : List (String × String)) (x : Option String)
    (c : Node) (rest rest' : List Node) (e : PyError)
    (h : processChild ([], []) c = Except.error e) :
    checkEntry (Node.mk t a x (c :: rest)) = Except.error e ∧
    checkEntry (Node.mk t a x (c :: rest)) = checkEntry (Node.mk t a x (c :: rest')) := by
  have h1 := @checkEntry_head_error t a x c rest e h
  have h2 := @checkEntry_head_error t a x c rest' e h
  exact ⟨h1, h1.trans h2.symm⟩

/-- C8 witness: the fail-fast theorem applied at a concrete entry whose first
child has an empty `from` value. -/
theorem validation_fail_fast_witness :
    checkEntry (Node.mk entryTag [] none [propChild "from" "", propChild "label" "L"]) =
      Except.error PyError.assertionError ∧
    checkEntry (Node.mk entryTag [] none [propChild "from" "", propChild "label" "L"]) =
      checkEntry (Node.mk entryTag [] none [propChild "from" ""]) :=
  validation_fail_fast entryTag [] none (propChild "from" "") [propChild "label" "L"] []
    PyError.assertionError rfl

/-! ### Unknown child kinds and property names (C6) -/

theorem all_contains_mono {req l : List String} {x : String}
    (h : req.all l.contains = true) : req.all (x :: l).contains = true := by
  rw [List.all_eq_true] at h ⊢
  intro t ht
  exact List.elem_iff.mpr (List.mem_cons_of_mem _ (List.elem_iff.mp (h t ht)))

theorem propertyValueCheck_unknown {n v : String} (h : n ∉ knownPropertyNames) :
    propertyValueCheck n v = Except.ok () := by
  simp only [knownPropertyNames, List.mem_cons, List.not_mem_nil, or_false, not_or] at h
  obtain ⟨h1, h2, h3, h4, h5, h6, h7, h8⟩ := h
  unfold propertyValueCheck
  rw [if_neg (by simpa using h1), if_neg (by simpa using h2), if_neg (by simpa using h3),
    if_neg (by simpa using h4), if_neg (by simpa using h5), if_neg (by simpa using h6),
    if_neg (by simpa using h7), if_neg (by simpa using h8)]

theorem processChild_unknown_property {st : List String × List String} {c : Node}
    {n v : String} (htag : c.tag = propertyTag) (hn : getAttr c "name" = some n)
    (hv : getAttr c "value" = some v) (hun : n ∉ knownPropertyNames) :
    processChild st c = Except.ok (c.tag :: st.1, n :: st.2) := by
  have hcpc : checkPropertyChild c = Except.ok n := by
    unfold checkPropertyChild
    rw [show attribIndex c "name" = Except.ok n from attribIndex_ok.mpr hn,
      show attribIndex c "value" = Except.ok v from attribIndex_ok.mpr hv]
    show (propertyValueCheck n v >>= fun _ => pure n) = Except.ok n
    rw [propertyValueCheck_unknown hun]
    rfl
  unfold processChild
  rw [htag,
    if_neg (by decide : ¬(propertyTag == categoryTag) = true),
    if_neg (by decide : ¬(propertyTag == titleTag) = true),
    if_neg (by decide : ¬(propertyTag == idTag) = true),
    if_neg (by decide : ¬(propertyTag == updatedTag) = true),
    if_neg (by decide : ¬(propertyTag == contentTag) = true),
    if_pos (by decide : (propertyTag == propertyTag) = true),
    hcpc]
  rfl

theorem processChild_unknown_tag {st : List String × List String} {c : Node}
    (hun : c.tag ∉ handledTags) :
    processChild st c = Except.ok (c.tag :: st.1, st.2) := by
  simp only [handledTags, List.mem_cons, List.not_mem_nil, or_false, not_or] at hun
  obtain ⟨h1, h2, h3, h4, h5, h6⟩ := hun
  unfold processChild
  rw [if_neg (by simpa using h1), if_neg (by simpa using h2), if_neg (by simpa using h3),
    if_neg (by simpa using h4), if_neg (by simpa using h5), if_neg (by simpa using h6)]
  rfl

theorem processChildren_append (l1 l2 : List Node) (st : List String × List String) :
    processChildren (l1 ++ l2) st =
      (processChildren l1 st) >>= fun s => processChildren l2 s := by
  induction l1 generalizing st with
  | nil => rfl
  | cons c l1 ih =>
    show (processChild st c >>= fun s => processChildren (l1 ++ l2) s) =
      ((processChild st c >>= fun s => processChildren l1 s) >>= fun s => processChildren l2 s)
    cases hpc : processChild st c with
    | error e => rfl
    | ok s =>
      show processChildren (l1 ++ l2) s =
        (processChildren l1 s >>= fun s' => processChildren l2 s')
      exact ih s

/-- C6 (amended): unknown child kinds and unknown property names are only
printed notices, not violations — appending to an entry that validates a
property child with an undeclared name (carrying `name` and `value`
attributes), or a child with an unhandled tag, leaves validation succeeding
(lines 78 and 80 merely `print`; the superset assertions of lines 82-83 do
not reject extras). -/
theorem unknown_children_only_notices (t : String) (a : List (String × String))
    (x : Option String) (cs : List Node) (c : Node) (n v : String)
    (hok : checkEntry (Node.mk t a x cs) = Except.ok ()) :
    (c.tag = propertyTag → getAttr c "name" = some n → getAttr c "value" = some v →
      n ∉ knownPropertyNames → checkEntry (Node.mk t a x (cs ++ [c])) = Except.ok ()) ∧
    (c.tag ∉ handledTags → checkEntry (Node.mk t a x (cs ++ [c])) = Except.ok ()) := by
  rw [checkEntry_ok_iff] at hok
  obtain ⟨st, hps, h2, h3⟩ := hok
  simp only [Node.children_mk] at hps
  constructor
  · intro h1 hn hv hun
    rw [checkEntry_ok_iff]
    refine ⟨(c.tag :: st.1, n :: st.2), ?_, all_contains_mono h2, all_contains_mono h3⟩
    simp only [Node.children_mk]
    rw [processChildren_append, hps]
    show processChildren [c] st = _
    show (processChild st c >>= fun s => processChildren [] s) = _
    rw [processChild_unknown_property h1 hn hv hun]
    rfl
  · intro hun
    rw [checkEntry_ok_iff]
    refine ⟨(c.tag :: st.1, st.2), ?_, all_contains_mono h2, h3⟩
    simp only [Node.children_mk]
    rw [processChildren_append, hps]
    show processChildren [c] st = _
    show (processChild st c >>= fun s => processChildren [] s) = _
    rw [processChild_unknown_tag hun]
    rfl

/-- Category child `<category term="filter"/>`. -/
def catChild : Node := Node.mk categoryTag [("term", "filter")] none []

/-- Title child `<title>Mail Filter</title>`. -/
def titleChild : Node := Node.mk titleTag [] (some "Mail Filter") []

/-- An id child with non-empty text. -/
def idChild : Node := Node.mk idTag [] (some "tag:example") []

/-- An updated child with non-empty text. -/
def updatedChild : Node := Node.mk updatedTag [] (some "2021-03-15T00:00:00Z") []

/-- Content child with no text. -/
def contentChild : Node := Node.mk contentTag [] none []

/-- The children of a fully valid entry with the given label. -/
def validChildren (lbl : String) : List Node :=
  [catChild, titleChild, idChild, updatedChild, contentChild,
   propChild "from" "someone@example.com", propChild "label" lbl,
   propChild "shouldNeverSpam" "true"]

/-- A fully valid entry with the given label. -/
def validEntry (lbl : String) : Node :=
  Node.mk entryTag [] none (validChildren lbl)

/-- The undeclared property child `<apps:property name="foo" value="bar"/>`. -/
def cFooChild : Node := propChild "foo" "bar"

/-- A fully valid entry carrying an extra undeclared property named "foo". -/
def cFooEntry : Node :=
  Node.mk entryTag [] none (validChildren "A" ++ [cFooChild])

/-- A document whose single entry carries the undeclared property "foo". -/
def cFooRoot : Node := Node.mk "feed" [] none [cFooEntry]

/-- C6 counterexample: an entry with an extra undeclared property named "foo"
is not reported as a violation at all — per-entry validation and the
whole-document check both succeed on it, because line 78 only prints the
unknown name and the assertions of lines 82-83 are superset checks. -/
theorem unknown_property_accepted_cex :
    checkEntry cFooEntry = Except.ok () ∧
    cFooChild ∈ cFooEntry.children ∧
    cFooChild.tag = propertyTag ∧
    getAttr cFooChild "name" = some "foo" ∧
    "foo" ∉ knownPropertyNames ∧
    check_filter_entity_properties cFooRoot = Except.ok () := by
  refine ⟨rfl, ?_, rfl, rfl, by decide, rfl⟩
  show cFooChild ∈ validChildren "A" ++ [cFooChild]
  simp [validChildren]

/-- C6 witness: the amended theorem applied to a concrete valid entry, an
undeclared property "fooX", and an unhandled tag "junkTag". -/
theorem unknown_children_only_notices_witness :
    checkEntry (Node.mk entryTag [] none (validChildren "A" ++ [propChild "fooX" "y"])) =
      Except.ok () ∧
    checkEntry (Node.mk entryTag [] none (validChildren "A" ++ [Node.mk "junkTag" [] none []])) =
      Except.ok () :=
  ⟨(unknown_children_only_notices entryTag [] none (validChildren "A")
      (propChild "fooX" "y") "fooX" "y" rfl).1 rfl rfl rfl (by decide),
   (unknown_children_only_notices entryTag [] none (validChildren "A")
      (Node.mk "junkTag" [] none []) "n" "v" rfl).2 (by decide)⟩

/-! ### Label extraction (C5) -/

theorem findLabelLoop_cons_nonprop {c : Node} {rest : List Node}
    (h : ¬c.tag = propertyTag) :
    findLabelLoop (c :: rest) = findLabelLoop rest := by
  unfold findLabelLoop
  rw [if_neg (by simpa using h)]
  cases rest <;> rfl

theorem findLabelLoop_cons_prop_other {c : Node} {rest : List Node} {n : String}
    (htag : c.tag = propertyTag) (hn : getAttr c "name" = some n) (hnl : ¬n = "label") :
    findLabelLoop (c :: rest) = findLabelLoop rest := by
  unfold findLabelLoop
  rw [if_pos (by simp [htag]),
    show attribIndex c "name" = Except.ok n from attribIndex_ok.mpr hn]
  show (if (n == "label") = true then attribIndex c "value" else findLabelLoop rest) = _
  rw [if_neg (by simpa using hnl)]
  cases rest <;> rfl

theorem findLabelLoop_cons_label {c : Node} {rest : List Node}
    (htag : c.tag = propertyTag) (hn : getAttr c "name" = some "label") :
    findLabelLoop (c :: rest) = attribIndex c "value" := by
  unfold findLabelLoop
  rw [if_pos (by simp [htag]),
    show attribIndex c "name" = Except.ok "label" from attribIndex_ok.mpr hn]
  show (if (("label" : String) == "label") = true then attribIndex c "value"
    else findLabelLoop rest) = _
  rw [if_pos (by decide)]

theorem firstLabelValue_cons_pos {c : Node} {rest : List Node}
    (h : (c.tag == propertyTag && (getAttr c "name" == some "label")) = true) :
    firstLabelValue (c :: rest) = getAttr c "value" := by
  unfold firstLabelValue
  rw [@List.find?_cons_of_pos Node
    (fun c => c.tag == propertyTag && (getAttr c "name" == some "label")) c rest h]
  rfl

theorem firstLabelValue_cons_neg {c : Node} {rest : List Node}
    (h : (c.tag == propertyTag && (getAttr c "name" == some "label")) = false) :
    firstLabelValue (c :: rest) = firstLabelValue rest := by
  unfold firstLabelValue
  rw [@List.find?_cons_of_neg Node
    (fun c => c.tag == propertyTag && (getAttr c "name" == some "label")) c rest
    (by simp [h])]

/-- Entries whose property-tagged children all carry `name` and `value`
attributes (the regime in which label extraction cannot raise `KeyError`). -/
def propsWellAttributed (cs : List Node) : Prop :=
  ∀ c ∈ cs, c.tag = propertyTag → (getAttr c "name").isSome ∧ (getAttr c "value").isSome

theorem findLabelLoop_wellAttributed {cs : List Node} (h : propsWellAttributed cs) :
    findLabelLoop cs = Except.ok ((firstLabelValue cs).getD "") := by
  induction cs with
  | nil => rfl
  | cons c rest ih =>
    have ihr := ih (fun c' hc' hp => h c' (List.mem_cons_of_mem _ hc') hp)
    by_cases htag : c.tag = propertyTag
    · obtain ⟨hn, hv⟩ := h c (List.mem_cons_self c rest) htag
      obtain ⟨nm, hnm⟩ := Option.isSome_iff_exists.mp hn
      by_cases hlab : nm = "label"
      · subst hlab
        obtain ⟨v, hvv⟩ := Option.isSome_iff_exists.mp hv
        rw [findLabelLoop_cons_label htag hnm,
          show attribIndex c "value" = Except.ok v from attribIndex_ok.mpr hvv,
          firstLabelValue_cons_pos (by simp [htag, hnm]), hvv]
        rfl
      · rw [findLabelLoop_cons_prop_other htag hnm hlab, ihr,
          firstLabelValue_cons_neg (by simp [hnm, hlab])]
    · rw [findLabelLoop_cons_nonprop htag, ihr,
        firstLabelValue_cons_neg (by simp [htag])]

theorem length_pos_of_ne_empty {s : String} (h : s ≠ "") : s.length > 0 := by
  cases s with
  | mk data =>
    cases data with
    | nil => simp at h
    | cons c cs => simp [String.length]

theorem get_label_wellAttributed {entry : Node} (h : propsWellAttributed entry.children) :
    get_filter_entry_label entry =
      (if ((firstLabelValue entry.children).getD "").length > 0
        then Except.ok ((firstLabelValue entry.children).getD "")
        else Except.error PyError.assertionError) := by
  unfold get_filter_entry_label
  rw [findLabelLoop_wellAttributed h]
  show (assertB (decide (((firstLabelValue entry.children).getD "").length > 0)) >>=
    fun _ => pure ((firstLabelValue entry.children).getD "")) = _
  by_cases hv : ((firstLabelValue entry.children).getD "").length > 0
  · rw [if_pos hv, decide_eq_true hv]
    rfl
  · rw [if_neg hv, decide_eq_false hv]
    rfl

/-- The entry of the C5 counterexample: its first property child has no
attributes at all, and its second is a well-formed label property with the
non-empty value "X". -/
def cShadowedLabel : Node :=
  Node.mk entryTag [] none [Node.mk propertyTag [] none [], propChild "label" "X"]

/-- C5 counterexample: label extraction does not fail exactly on "no label
property or empty value" — on an entry that does contain a label property
with the non-empty value "X" (so by the claim extraction should return "X"),
it aborts with `KeyError` from indexing the `name` attribute of an earlier
attribute-less property child, which is neither the claimed return nor the
claimed assertion failure. -/
theorem label_extraction_keyerror_cex :
    get_filter_entry_label cShadowedLabel = Except.error (PyError.keyError "name") ∧
    firstLabelValue cShadowedLabel.children = some "X" ∧
    get_filter_entry_label cShadowedLabel ≠ Except.ok "X" ∧
    get_filter_entry_label cShadowedLabel ≠ Except.error PyError.assertionError := by
  have h0 : get_filter_entry_label cShadowedLabel =
      Except.error (PyError.keyError "name") := rfl
  refine ⟨h0, rfl, fun h => ?_, fun h => ?_⟩
  · rw [h0] at h
    exact Except.noConfusion h
  · rw [h0] at h
    have h1 : PyError.keyError "name" = PyError.assertionError := Except.error.inj h
    exact PyError.noConfusion h1

/-- C5 (amended): restricted to entries whose property children all carry
`name` and `value` attributes (otherwise `KeyError` pre-empts the scan, see
the counterexample and C10), label extraction returns the `value` of the
first direct property child whose `name` is "label", and aborts with the
assertion failure exactly when no such property exists or that value is the
empty string. -/
theorem label_extraction_characterization (entry : Node)
    (h : propsWellAttributed entry.children) :
    (∀ v, v ≠ "" → (get_filter_entry_label entry = Except.ok v ↔
      firstLabelValue entry.children = some v)) ∧
    (get_filter_entry_label entry = Except.error PyError.assertionError ↔
      (firstLabelValue entry.children = none ∨
        firstLabelValue entry.children = some "")) := by
  rw [get_label_wellAttributed h]
  cases hf : firstLabelValue entry.children with
  | none =>
    have hne : ¬(("" : String).length > 0) := by decide
    rw [show (Option.none.getD "" : String) = "" from rfl, if_neg hne]
    constructor
    · intro v hv
      constructor
      · intro he; exact absurd he (fun he => Except.noConfusion he)
      · intro he; exact Option.noConfusion he
    · simp
  | some v0 =>
    by_cases hv0 : v0 = ""
    · subst hv0
      have hne : ¬(("" : String).length > 0) := by decide
      rw [show ((Option.some "").getD "" : String) = "" from rfl, if_neg hne]
      constructor
      · intro v hv
        constructor
        · intro he; exact absurd he (fun he => Except.noConfusion he)
        · intro he
          exact absurd (Option.some.inj he).symm hv
      · simp
    · have hpos : v0.length > 0 := length_pos_of_ne_empty hv0
      rw [show ((Option.some v0).getD "" : String) = v0 from rfl, if_pos hpos]
      constructor
      · intro v hv
        constructor
        · intro he
          rw [Except.ok.inj he]
        · intro he
          rw [Option.some.inj he]
      · constructor
        · intro he; exact absurd he (fun he => Except.noConfusion he)
        · intro he
          rcases he with he | he
          · exact Option.noConfusion he
          · exact absurd (Option.some.inj he) hv0
  -- end

/-- C5 witness: the characterization applied to a concrete well-attributed
entry whose label property has value "A". -/
theorem label_extraction_characterization_witness :
    get_filter_entry_label (validEntry "A") = Except.ok "A" ∧
    firstLabelValue (validEntry "A").children = some "A" := by
  have h := label_extraction_characterization (validEntry "A")
    (by unfold propsWellAttributed; decide)
  exact ⟨((h.1 "A" (by decide)).mpr rfl), rfl⟩

/-! ### Pipeline gating (C9) -/

theorem findLabelLoop_success {cs : List Node}
    (hall : ∀ c ∈ cs, c.tag = propertyTag →
      ∃ n vv, getAttr c "name" = some n ∧ getAttr c "value" = some vv ∧
        (n = "label" → vv.length > 0))
    (hex : ∃ c ∈ cs, c.tag = propertyTag ∧ getAttr c "name" = some "label") :
    ∃ v, findLabelLoop cs = Except.ok v ∧ v.length > 0 := by
  induction cs with
  | nil =>
    obtain ⟨c, hc, _⟩ := hex
    cases hc
  | cons c rest ih =>
    by_cases htag : c.tag = propertyTag
    · obtain ⟨n, vv, hn, hvv, himp⟩ := hall c (List.mem_cons_self c rest) htag
      by_cases hlab : n = "label"
      · subst hlab
        refine ⟨vv, ?_, himp rfl⟩
        rw [findLabelLoop_cons_label htag hn]
        exact attribIndex_ok.mpr hvv
      · rw [findLabelLoop_cons_prop_other htag hn hlab]
        refine ih (fun c' hc' hp => hall c' (List.mem_cons_of_mem _ hc') hp) ?_
        obtain ⟨c', hc', hct', hnm'⟩ := hex
        rcases List.mem_cons.mp hc' with rfl | hc0
        · rw [hn] at hnm'
          exact absurd (Option.some.inj hnm') hlab
        · exact ⟨c', hc0, hct', hnm'⟩
    · rw [findLabelLoop_cons_nonprop htag]
      refine ih (fun c' hc' hp => hall c' (List.mem_cons_of_mem _ hc') hp) ?_
      obtain ⟨c', hc', hct', hnm'⟩ := hex
      rcases List.mem_cons.mp hc' with rfl | hc0
      · exact absurd hct' htag
      · exact ⟨c', hc0, hct', hnm'⟩

theorem checkEntry_label_ok {e : Node} (h : checkEntry e = Except.ok ()) :
    ∃ l, get_filter_entry_label e = Except.ok l := by
  rw [checkEntry_ok_iff] at h
  obtain ⟨st, hps, _, h3⟩ := h
  have hl : "label" ∈ st.2 :=
    List.elem_iff.mp (List.all_eq_true.mp h3 "label" (by decide))
  have hex : ∃ c ∈ e.children, c.tag = propertyTag ∧ getAttr c "name" = some "label" := by
    rcases processChildren_ok_mem_props hps "label" hl with h0 | h0
    · cases h0
    · exact h0
  have hall : ∀ c ∈ e.children, c.tag = propertyTag →
      ∃ n vv, getAttr c "name" = some n ∧ getAttr c "value" = some vv ∧
        (n = "label" → vv.length > 0) := by
    intro c hc htag
    obtain ⟨s, s', hpc⟩ := processChildren_ok_each hps c hc
    obtain ⟨n, hcpc⟩ := processChild_property_ok hpc htag
    obtain ⟨hn, vv, hvv, himp⟩ := checkPropertyChild_ok hcpc
    exact ⟨n, vv, hn, hvv, himp⟩
  obtain ⟨v, hfl, hvpos⟩ := findLabelLoop_success hall hex
  refine ⟨v, ?_⟩
  unfold get_filter_entry_label
  rw [hfl]
  show (assertB (decide (v.length > 0)) >>= fun _ => pure v) = Except.ok v
  rw [decide_eq_true hvpos]
  rfl

theorem sort_ok_of_mapLabels {root : Node} {ls : List String}
    (h : mapLabels (findEntries root) = Except.ok ls) :
    sort_filter_entries_by_label root = Except.ok
      (Node.mk root.tag root.attrib root.text
        (root.children.filter (fun c => !(c.tag == entryTag)) ++
          (sortPairs (ls.zip (findEntries root))).map Prod.snd)) :=
  exceptBind_ok.mpr ⟨ls, h, rfl⟩

/-- C9: the pipeline writes output exactly when validation passes — if some
top-level entry fails validation, the run aborts with that exception before
the reorder/write steps, producing no output document; if every entry
validates, the reordered document is produced (and is the one written). -/
theorem pipeline_gates_output_on_validation (root : Node) :
    ((∃ e ∈ findEntries root, checkEntry e ≠ Except.ok ()) →
      ∃ err, runMain root = Except.error err) ∧
    ((∀ e ∈ findEntries root, checkEntry e = Except.ok ()) →
      ∃ root', runMain root = Except.ok root' ∧
        sort_filter_entries_by_label root = Except.ok root') := by
  constructor
  · rintro ⟨e, he, hne⟩
    have hno : check_filter_entity_properties root ≠ Except.ok () := by
      intro hok
      exact hne (checkEntries_ok_iff.mp hok e he)
    obtain ⟨err, herr⟩ := exceptUnit_not_ok hno
    refine ⟨err, ?_⟩
    unfold runMain
    rw [herr]
    rfl
  · intro hall
    have hok : check_filter_entity_properties root = Except.ok () :=
      checkEntries_ok_iff.mpr hall
    obtain ⟨ls, hls⟩ :=
      mapLabels_of_all_ok (fun e he => checkEntry_label_ok (hall e he))
    have hsort := sort_ok_of_mapLabels hls
    refine ⟨_, ?_, hsort⟩
    unfold runMain
    rw [hok]
    show sort_filter_entries_by_label root = _
    exact hsort

/-- An entry missing the required `shouldNeverSpam` property. -/
def cMissingSpam : Node :=
  Node.mk entryTag [] none
    [catChild, titleChild, idChild, updatedChild, contentChild,
     propChild "from" "someone@example.com", propChild "label" "A"]

/-- A document whose single entry misses a required property. -/
def cBadRoot : Node := Node.mk "feed" [] none [cMissingSpam]

/-- A document with a single fully valid entry. -/
def cGoodRoot : Node := Node.mk "feed" [] none [validEntry "A"]

/-- C9 witness: the pipeline theorem applied to a document whose entry misses
`shouldNeverSpam` (aborts, no output) and to one with a valid entry (output
produced). -/
theorem pipeline_gates_output_witness :
    (∃ err, runMain cBadRoot = Except.error err) ∧
    (∃ root', runMain cGoodRoot = Except.ok root' ∧
      sort_filter_entries_by_label cGoodRoot = Except.ok root') := by
  constructor
  · refine (pipeline_gates_output_on_validation cBadRoot).1 ⟨cMissingSpam, ?_, ?_⟩
    · show cMissingSpam ∈ [cMissingSpam]
      exact List.mem_singleton.mpr rfl
    · intro h
      have h0 : checkEntry cMissingSpam = Except.error PyError.assertionError := rfl
      rw [h0] at h
      exact Except.noConfusion h
  · refine (pipeline_gates_output_on_validation cGoodRoot).2 ?_
    intro e he
    rcases List.mem_cons.mp (show e ∈ [validEntry "A"] from he) with rfl | h0
    · rfl
    · cases h0

/-! ### Ignore-list exemption (C1) -/

/-- C1 (the ignore-list evaluator is modelled from the spec, see
`validate_entry`): an entry whose extracted label is in the ignore list is
validated as "skipped" — no violations regardless of its children and their
values or of the rule set — and it still appears among the top-level entries
of the sorted output. -/
theorem ignored_entry_skipped_and_still_sorted
    (rules : List (String × SpecRule)) (ignore_list : List String)
    (entry root root' : Node) (l : String)
    (hl : get_filter_entry_label entry = Except.ok l) (hmem : l ∈ ignore_list) :
    validate_entry rules ignore_list entry = Except.ok ValidationResult.skipped ∧
    (sort_filter_entries_by_label root = Except.ok root' → entry ∈ findEntries root →
      entry ∈ findEntries root') := by
  constructor
  · have hc : ignore_list.contains l = true := List.elem_iff.mpr hmem
    refine exceptBind_ok.mpr ⟨l, hl, ?_⟩
    rw [if_pos hc]
    rfl
  · intro hsort hment
    obtain ⟨ls, hml, rfl⟩ := sort_ok_decomp hsort
    rw [findEntries_output]
    have hlen := mapLabels_ok_length hml
    have hmm : entry ∈ (ls.zip (findEntries root)).map Prod.snd := by
      rw [List.map_snd_zip _ _ (le_of_eq hlen.symm)]
      exact hment
    obtain ⟨p, hp, hpe⟩ := List.mem_map.mp hmm
    exact List.mem_map.mpr ⟨p, (List.mem_insertionSort pairLe).mpr hp, hpe⟩

/-- A rule set for the C1 witness. -/
def sampleRules : List (String × SpecRule) :=
  [(categoryTag, SpecRule.single (SpecAssertion.equalsLit "filter")),
   (propertyTag, SpecRule.perProperty
     [("from", SpecAssertion.nonEmpty), ("label", SpecAssertion.nonEmpty),
      ("shouldNeverSpam", SpecAssertion.equalsLit "true")])]

/-- An entry whose label is "Ignore" and which plainly violates the rules
(its `shouldNeverSpam` is "false" and it misses required children). -/
def cIgnored : Node :=
  Node.mk entryTag [] none [propChild "label" "Ignore", propChild "shouldNeverSpam" "false"]

/-- A document containing only the ignored entry. -/
def cIgnRoot : Node := Node.mk "feed" [] none [cIgnored]

/-- C1 witness: the ignored-entry theorem applied to a concrete rule set, the
ignore list ["Ignore"], a violating entry labelled "Ignore", and a document
containing it; the sorted output still contains the entry. -/
theorem ignored_entry_witness :
    validate_entry sampleRules ["Ignore"] cIgnored = Except.ok ValidationResult.skipped ∧
    cIgnored ∈ findEntries cIgnRoot := by
  have h := ignored_entry_skipped_and_still_sorted sampleRules ["Ignore"]
    cIgnored cIgnRoot cIgnRoot "Ignore" rfl (by decide)
  refine ⟨h.1, h.2 ?_ ?_⟩
  · rfl
  · show cIgnored ∈ [cIgnored]
    exact List.mem_singleton.mpr rfl

/-! ### Remaining witnesses -/

/-- A document with one entry before a non-entry sibling. -/
def cMixedRoot : Node := Node.mk "feed" [] none [validEntry "A", titleChild]

/-- The reordered form of `cMixedRoot`: the entry re-appended at the end. -/
def cMixedOut : Node := Node.mk "feed" [] none [titleChild, validEntry "A"]

/-- C2 witness: the sortedness/stability theorem applied to the concrete
document `cMixedRoot` (whose reorder succeeds and yields `cMixedOut`). -/
theorem sorted_output_witness :
    (∃ ls, mapLabels (findEntries cMixedOut) = Except.ok ls ∧
      List.Sorted (fun a b : String => a ≤ b) ls) ∧
    ∀ k, (findEntries cMixedOut).filter (fun e => labelIs e k) =
      (findEntries cMixedRoot).filter (fun e => labelIs e k) :=
  sorted_output_labels_monotone_and_stable cMixedRoot cMixedOut rfl

/-- C3 witness: idempotence applied to the concrete document `cMixedRoot`
(note the first application does move the entry past the title node, and the
second application then changes nothing). -/
theorem sort_idempotent_witness :
    sort_filter_entries_by_label cMixedOut = Except.ok cMixedOut :=
  sort_filter_entries_idempotent cMixedRoot cMixedOut rfl

/-- C4 witness: the frame theorem applied to the concrete document
`cMixedRoot`. -/
theorem sort_frame_witness :
    cMixedOut.tag = cMixedRoot.tag ∧ cMixedOut.attrib = cMixedRoot.attrib ∧
    cMixedOut.text = cMixedRoot.text ∧
    cMixedOut.children.filter (fun c => !(c.tag == entryTag)) =
      cMixedRoot.children.filter (fun c => !(c.tag == entryTag)) ∧
    (findEntries cMixedOut).Perm (findEntries cMixedRoot) :=
  sort_preserves_nonentries_and_entry_multiset cMixedRoot cMixedOut rfl

/-- C7 witness: the missing-required theorem applied to the concrete entry
`cMissingSpam` (which lacks the required `shouldNeverSpam` property) inside
`cBadRoot`. -/
theorem missing_required_witness :
    ("shouldNeverSpam" ∈ required_filter_entry_properties ∧
      "shouldNeverSpam" ∉ childPropNames cMissingSpam) ∧
    checkEntry cMissingSpam ≠ Except.ok () ∧
    check_filter_entity_properties cBadRoot ≠ Except.ok () := by
  have h := missing_required_fails_validation cMissingSpam cBadRoot
    (Or.inr ⟨"shouldNeverSpam", by decide, by decide⟩)
  refine ⟨⟨by decide, by decide⟩, h.1, h.2 ?_⟩
  show cMissingSpam ∈ [cMissingSpam]
  exact List.mem_singleton.mpr rfl

/-- A category child without a `term` attribute. -/
def cNoTerm : Node := Node.mk categoryTag [] none []

/-- A property child without a `name` attribute. -/
def cNoName : Node := Node.mk propertyTag [("value", "v")] none []

/-- A property child with a `name` but no `value` attribute. -/
def cNoValue : Node := Node.mk propertyTag [("name", "from")] none []

/-- C10 witness: the `KeyError` theorem applied to three concrete malformed
children and to label extraction over one of them. -/
theorem attribute_keyerror_witness :
    checkEntry (Node.mk entryTag [] none [cNoTerm]) =
      Except.error (PyError.keyError "term") ∧
    checkEntry (Node.mk entryTag [] none [cNoName]) =
      Except.error (PyError.keyError "name") ∧
    checkEntry (Node.mk entryTag [] none [cNoValue]) =
      Except.error (PyError.keyError "value") ∧
    get_filter_entry_label (Node.mk entryTag [] none [cNoName]) =
      Except.error (PyError.keyError "name") :=
  ⟨(attribute_keyerror_behavior entryTag [] none cNoTerm [] "from").1 rfl rfl,
   (attribute_keyerror_behavior entryTag [] none cNoName [] "from").2.1 rfl rfl,
   (attribute_keyerror_behavior entryTag [] none cNoValue [] "from").2.2.1 rfl rfl rfl,
   (attribute_keyerror_behavior entryTag [] none cNoName [] "from").2.2.2 rfl rfl⟩
